import Mathlib

/-!
Verification of the validator-package installation and namespace-registration
subsystem of the guardrails repository.

The repository ships the caller `guardrails/cli/create.py` and the unit tests
`tests/unit_tests/hub/test_validator_package_service.py`; the service module
`guardrails/hub/validator_package_service.py` itself is not part of the source
tree.  Definitions for the service are therefore modelled from the
specification, with the behaviour pinned down by the unit-test assertions
wherever the tests fix an exact call sequence or file content.  The caller
`create.py` is embedded directly from its source.

File contents are modelled as `List Char` (the `data` field of `String`),
package-manager and subprocess activity as explicit traces.
-/

/-- Modelled from the spec: provenance record of a manifest
(`repository` with `url` and optional `branch`). -/
structure Repository where
  url : String
  branch : Option String := none
deriving DecidableEq

/-- Modelled from the spec: capability flags of a manifest, notably whether
the package requires a remote inference endpoint
(`tags.has_guardrails_endpoint` in the tests). -/
structure ManifestTags where
  has_guardrails_endpoint : Bool := false
deriving DecidableEq

/-- Modelled from the spec: the `ModuleManifest` record describing one
installable package (identity, provenance, ordered exports, tags, optional
post-install script).  The Python field `namespace` is a Lean keyword and is
rendered `namespace'`. -/
structure ModuleManifest where
  id : String
  name : String
  namespace' : String
  package_name : String
  module_name : String
  repository : Repository
  exports : List String
  tags : ManifestTags := {}
  post_install : Option String := none
deriving DecidableEq

/-- Modelled from the spec: hyphen-to-underscore segment normalisation
(`.replace("-", "_")` applied to namespace and package name). -/
def snake_case (s : String) : String :=
  ⟨s.data.map fun c => if c = '-' then '_' else c⟩

/-- Modelled from the spec: `get_org_and_package_dirs` — one segment for a
non-empty namespace, then the package-name segment, hyphens replaced by
underscores; an empty namespace contributes no segment. -/
def get_org_and_package_dirs (m : ModuleManifest) : List String :=
  let org := snake_case m.namespace'
  let pkg := snake_case m.package_name
  if org = "" then [pkg] else [org, pkg]

/-- Lexicographic comparison on character lists, matching Python's default
string ordering (code-point lexicographic). -/
def charListLe : List Char → List Char → Bool
  | [], _ => true
  | _ :: _, [] => false
  | a :: as, b :: bs => if a < b then true else if b < a then false else charListLe as bs

/-- The descending string order used to arrange exports in the generated
statement (the relation of Python's `sorted(exports, reverse=True)`). -/
def exportRevOrder (a b : String) : Prop := charListLe b.data a.data = true

instance : DecidableRel exportRevOrder := fun a b =>
  inferInstanceAs (Decidable (charListLe b.data a.data = true))

/-- Modelled from the spec and the unit tests: the exports as they appear in
the generated import statement.  The test `test_closes_early_if_already_added`
declares `exports = ["TestValidator", "helper"]` yet treats the file line
`... import helper, TestValidator` as the generated statement, so the service
emits the exports sorted in descending lexicographic order, not in declared
order. -/
def sorted_exports (l : List String) : List String :=
  List.insertionSort exportRevOrder l

/-- Modelled from the spec: the generated import statement
`from guardrails.hub.<namespace-dirs>.<module_name> import <exports>`, with
the exports arranged by `sorted_exports` as pinned by the unit tests. -/
def import_line (m : ModuleManifest) : String :=
  "from guardrails.hub." ++
    String.intercalate "." (get_org_and_package_dirs m ++ [m.module_name]) ++
    " import " ++ String.intercalate ", " (sorted_exports m.exports)

/-- Whether `p` occurs as a contiguous substring of the second list
(Python's `p in content` check used by the registrar). -/
def containsSub (p : List Char) : List Char → Bool
  | [] => p.isEmpty
  | c :: rest => p.isPrefixOf (c :: rest) || containsSub p rest

/-- Number of start positions at which `p` occurs in the list (occurrence
count of the import statement inside a registration file). -/
def countOcc (p : List Char) : List Char → Nat
  | [] => 0
  | c :: rest => (if p.isPrefixOf (c :: rest) then 1 else 0) + countOcc p rest

/-- Modelled from the spec and the unit tests: the registrar's check-and-append
step on one existing registration file.  If the statement already occurs,
nothing is written; otherwise the statement is appended, preceded by a newline
exactly when the prior content is non-empty (the test
`test_appends_import_line_if_not_present` shows a single `write(statement)`
call — no newline — for an existing empty namespace file, while the spec text
claims a newline is always written). -/
def ensure_line (line content : List Char) : List Char :=
  if containsSub line content then content
  else if content.isEmpty then line
  else content ++ '\n' :: line

/-- State of the pair of registration files: the top-level hub file (assumed
always present) and the namespace file (`none` when it does not exist yet). -/
structure RegFiles where
  hubInit : List Char
  nsInit : Option (List Char)
deriving DecidableEq

/-- Modelled from the spec: `add_to_hub_inits` — apply the check-and-append
step to the hub registration file, then to the namespace file, creating the
namespace file with the statement as its entire content when absent. -/
def add_to_hub_inits (m : ModuleManifest) (st : RegFiles) : RegFiles :=
  let line := (import_line m).data
  { hubInit := ensure_line line st.hubInit
    nsInit :=
      match st.nsInit with
      | none => some line
      | some c => some (ensure_line line c) }

/-- Modelled from the spec and the unit tests: `get_install_url`.  The test
`test_get_install_url` maps `{url: "some-repo"}` to `"git+some-repo"`, so the
service prefixes the repository url with `"git+"` unless it already starts
with it (the spec text claims the url is used unchanged), then appends
`"@" ++ branch` when a branch is present. -/
def get_install_url (m : ModuleManifest) : String :=
  let url := m.repository.url
  let giturl := if "git+".data.isPrefixOf url.data then url else "git+" ++ url
  match m.repository.branch with
  | none => giturl
  | some b => giturl ++ "@" ++ b

/-- Modelled from the spec: `get_hub_directory` — site-packages root, the
fixed `guardrails/hub` segments, then the namespace/package segments. -/
def get_hub_directory (m : ModuleManifest) (site_packages : String) : String :=
  String.intercalate "/" ([site_packages, "guardrails", "hub"] ++ get_org_and_package_dirs m)

/-- Modelled from the spec: one declared requirement of the installed
distribution — the name-plus-version-constraint text and the optional
environment marker gating it. -/
structure Requirement where
  spec : String
  marker : Option String := none
deriving DecidableEq

/-- A requirement is skipped exactly when it carries an environment marker
that the current environment does not satisfy (`sat` is the ambient
marker-satisfaction oracle). -/
def unsatisfied_marker (sat : String → Bool) (r : Requirement) : Bool :=
  match r.marker with
  | none => false
  | some mk => !sat mk

/-- One package-manager subprocess invocation: the target-scoped install of
the package itself, the inspect call, or a plain dependency install. -/
inductive PipCall where
  | install (url : String) (flags : List String)
  | inspect (flags : List String)
  | installDep (spec : String)
deriving DecidableEq

/-- Predicate selecting target-scoped install calls in a trace. -/
def PipCall.isTargetInstall : PipCall → Bool
  | .install _ _ => true
  | _ => false

/-- Predicate selecting inspect calls in a trace. -/
def PipCall.isInspect : PipCall → Bool
  | .inspect _ => true
  | _ => false

/-- Predicate selecting plain dependency install calls in a trace. -/
def PipCall.isDepInstall : PipCall → Bool
  | .installDep _ => true
  | _ => false

/-- Modelled from the spec: the dependency-reconciliation loop — one plain
install per requirement, with marker-gated requirements skipped and the
marker stripped (only `Requirement.spec`, the constraint text, is passed
on). -/
def dependency_installs (sat : String → Bool) : List Requirement → List PipCall
  | [] => []
  | r :: rest =>
    if unsatisfied_marker sat r then dependency_installs sat rest
    else PipCall.installDep r.spec :: dependency_installs sat rest

/-- Modelled from the spec: `install_hub_module` — the target-scoped install
with dependency resolution disabled, the inspect call against the target
directory, then the reconciliation installs.  `reqs` stands for the
requirement strings the inspect call reports. -/
def install_hub_module (m : ModuleManifest) (site_packages : String)
    (reqs : List Requirement) (sat : String → Bool) : List PipCall :=
  PipCall.install (get_install_url m)
      ["--target=" ++ get_hub_directory m site_packages, "--no-deps"] ::
    PipCall.inspect ["--path=" ++ get_hub_directory m site_packages] ::
    dependency_installs sat reqs

/-- Modelled from the spec: the on-disk location of the declared post-install
script (target directory plus the script's relative path). -/
def post_install_script_path (m : ModuleManifest) (site_packages script : String) : String :=
  String.intercalate "/"
    ([site_packages, "guardrails", "hub"] ++ get_org_and_package_dirs m ++
      [m.module_name, script])

/-- Modelled from the spec: `run_post_install` — spawn the script as one
subprocess (interpreter plus script path, no further arguments) exactly when
the field is present, non-empty and the resolved path exists; every other
combination performs no invocation. -/
def run_post_install (m : ModuleManifest) (site_packages executable : String)
    (is_file : String → Bool) : List (List String) :=
  match m.post_install with
  | none => []
  | some script =>
    if script = "" then []
    else if is_file (post_install_script_path m site_packages script) then
      [[executable, post_install_script_path m site_packages script]]
    else []

/-- The error taxonomy of the orchestrator relevant to these claims. -/
inductive InstallError where
  | invalidHubInstallURL
  | localModelFlagNotSet
deriving DecidableEq

/-- One observable step of the orchestrator: a log event or one unit of
installation work. -/
inductive InstallStep where
  | logEvent (msg : String)
  | installHubModule
  | runPostInstall
  | addToHubInits
  | getValidatorFromManifest
deriving DecidableEq

/-- Modelled from the spec: the local-vs-remote-inference policy.  An explicit
caller flag wins; otherwise, for an endpoint-requiring package, persisted
settings are consulted when present, then a supplied confirmation callback
(`confirm`, `some d` meaning a callback answering `d`); with no decision
source left the dedicated ambiguity error is raised.  A package that does not
require a remote endpoint defaults to installing models locally. -/
def resolve_use_remote (install_local_models : Option Bool) (has_endpoint : Bool)
    (has_rc_file : Bool) (rc_use_remote : Bool) (confirm : Option Bool) :
    Except InstallError Bool :=
  match install_local_models with
  | some b => .ok (!b)
  | none =>
    if has_endpoint then
      if has_rc_file then .ok rc_use_remote
      else
        match confirm with
        | some c => .ok (!c)
        | none => .error .localModelFlagNotSet
    else .ok false

/-- Modelled from the spec: `get_module_name` — strip the `hub://` prefix,
anything without it fails with the malformed-identifier error. -/
def get_module_name (uri : String) : Except InstallError String :=
  if "hub://".data.isPrefixOf uri.data then .ok (String.mk (uri.data.drop 6))
  else .error .invalidHubInstallURL

/-- Modelled from the spec: the completion log message with ready-to-paste
usage text and documentation link. -/
def success_message (uri : String) (m : ModuleManifest) : String :=
  "✅Successfully installed " ++ uri ++ "!\n\nImport validator:\nfrom guardrails.hub import " ++
    m.exports.headD "" ++ "\n\nGet more info:\nhttps://hub.guardrailsai.com/validator/" ++
    m.id ++ "\n"

/-- Modelled from the spec: the install orchestrator.  The manifest `m` stands
for what the resolver returns for the parsed identifier; `has_rc_file` and
`rc_use_remote` model the persisted settings store; `confirm` the optional
confirmation callback.  The returned trace lists the emitted steps in order;
the second component is the error aborting the sequence, if any. -/
def install (uri : String) (m : ModuleManifest) (install_local_models : Option Bool)
    (has_rc_file rc_use_remote : Bool) (confirm : Option Bool) :
    List InstallStep × Option InstallError :=
  if "hub://".data.isPrefixOf uri.data then
    let startLog := InstallStep.logEvent ("Installing " ++ uri ++ "...")
    match resolve_use_remote install_local_models m.tags.has_guardrails_endpoint
        has_rc_file rc_use_remote confirm with
    | .error e => ([startLog], some e)
    | .ok useRemote =>
      let decisionMsg :=
        if useRemote then
          "Skipping post install, models will not be downloaded for local inference."
        else "Installing models locally!"
      (startLog ::
        InstallStep.logEvent decisionMsg ::
        InstallStep.installHubModule ::
        ((if useRemote then [] else [InstallStep.runPostInstall]) ++
          [InstallStep.addToHubInits, InstallStep.getValidatorFromManifest,
            InstallStep.logEvent (success_message uri m)]), none)
  else ([], some .invalidHubInstallURL)

/-- Python's whitespace set for `str.strip()` (ASCII range). -/
def py_whitespace (c : Char) : Bool :=
  (c == ' ') || (c == '\t') || (c == '\n') || (c == '\r') ||
    (c == Char.ofNat 11) || (c == Char.ofNat 12)

/-- Python `str.lstrip(chars)` on list data: remove leading characters drawn
from the character SET `cs` (not the prefix string). -/
def lstrip_chars (cs : List Char) : List Char → List Char
  | [] => []
  | c :: rest => if cs.contains c then lstrip_chars cs rest else c :: rest

/-- Python `v.lstrip(chars)` as used in `split_and_install_validators`. -/
def py_lstrip (s chars : String) : String := ⟨lstrip_chars chars.data s.data⟩

/-- Python `v.strip()` (default whitespace strip at both ends). -/
def py_strip (s : String) : String :=
  ⟨((s.data.dropWhile py_whitespace).reverse.dropWhile py_whitespace).reverse⟩

/-- Python `s.split(",")` on list data. -/
def split_on_comma : List Char → List (List Char)
  | [] => [[]]
  | c :: rest =>
    if c = ',' then [] :: split_on_comma rest
    else
      match split_on_comma rest with
      | [] => [[c]]
      | g :: gs => (c :: g) :: gs

/-- Python `validators.split(",")`. -/
def py_split_comma (s : String) : List String := (split_on_comma s.data).map String.mk

/-- The identifier loop of `split_and_install_validators` in
`guardrails/cli/create.py`: each entry must pass
`v.strip().startswith("hub://")`, and the identifier handed to
`get_validator_manifest` is `v.lstrip("hub://")`; a failing entry makes the
whole call return early with no result. -/
def split_validators_loop : List String → Option (List String)
  | [] => some []
  | v :: rest =>
    if "hub://".data.isPrefixOf (py_strip v).data then
      match split_validators_loop rest with
      | some l => some (py_lstrip v "hub://" :: l)
      | none => none
    else none

/-- The identifiers for which `split_and_install_validators`
(`guardrails/cli/create.py`) fetches manifests, in order. -/
def split_and_install_validators (validators : String) : Option (List String) :=
  split_validators_loop (py_split_comma validators)

/-- The manifest used throughout `TestAddToHubInits`
(exports `["TestValidator", "helper"]`). -/
def manifestTwoExports : ModuleManifest :=
  { id := "id"
    name := "name"
    namespace' := "guardrails-ai"
    package_name := "test-validator"
    module_name := "validator"
    repository := { url := "some-repo" }
    exports := ["TestValidator", "helper"]
    tags := {} }

/-- The single-export manifest of the registrar and post-install tests. -/
def manifestOneExport : ModuleManifest :=
  { id := "id"
    name := "name"
    namespace' := "guardrails-ai"
    package_name := "test-validator"
    module_name := "validator"
    repository := { url := "some-repo" }
    exports := ["TestValidator"]
    tags := {}
    post_install := some "post_install.py" }

/-- The empty-namespace manifest of `test_get_org_and_package_dirs`. -/
def manifestNoNamespace : ModuleManifest :=
  { id := "id"
    name := "name"
    namespace' := ""
    package_name := "test-validator"
    module_name := "test_validator"
    repository := { url := "some-repo" }
    exports := ["TestValidator"]
    tags := {} }

/-- A manifest with a branch on its repository
(third case of `test_get_install_url`). -/
def manifestWithBranch : ModuleManifest :=
  { id := "id"
    name := "name"
    namespace' := "guardrails-ai"
    package_name := "test-validator"
    module_name := "validator"
    repository := { url := "git+some-repo", branch := some "prod" }
    exports := ["TestValidator"]
    tags := {} }

/-- An endpoint-requiring manifest
(`test_install_local_models_confirmation_raises_exception`). -/
def manifestWithEndpoint : ModuleManifest :=
  { id := "test-id"
    name := "test-name"
    namespace' := "test-namespace"
    package_name := "test-package"
    module_name := "test_module"
    repository := { url := "test-repo" }
    exports := ["TestValidator"]
    tags := { has_guardrails_endpoint := true } }

theorem prefixOf_refl (p : List Char) : p.isPrefixOf p = true := by
  induction p with
  | nil => rfl
  | cons a t ih => simp [List.isPrefixOf, ih]

theorem prefixOf_length {p : List Char} :
    ∀ {s : List Char}, p.isPrefixOf s = true → p.length ≤ s.length := by
  induction p with
  | nil => simp
  | cons a t ih =>
    intro s h
    cases s with
    | nil => simp [List.isPrefixOf] at h
    | cons b u =>
      simp only [List.isPrefixOf, Bool.and_eq_true] at h
      simpa using ih h.2

theorem prefixOf_append_split :
    ∀ (xs : List Char) {p ys : List Char}, p.isPrefixOf (xs ++ ys) = true →
      p.isPrefixOf xs = true ∨ ∃ t, p = xs ++ t ∧ t.isPrefixOf ys = true
  | [], p, ys, h => Or.inr ⟨p, rfl, h⟩
  | a :: xs, p, ys, h => by
    cases p with
    | nil => exact Or.inl rfl
    | cons b q =>
      simp only [List.cons_append, List.isPrefixOf, Bool.and_eq_true] at h
      obtain ⟨hb, hq⟩ := h
      have hba : b = a := by simpa using hb
      rcases prefixOf_append_split xs hq with h1 | ⟨t, ht, hpf⟩
      · left
        simp [List.isPrefixOf, hb, h1]
      · right
        refine ⟨t, ?_, hpf⟩
        subst hba
        rw [ht, List.cons_append]

theorem containsSub_self (p : List Char) : containsSub p p = true := by
  cases p with
  | nil => rfl
  | cons a t => simp [containsSub, prefixOf_refl]

theorem containsSub_cons {p s : List Char} (h : containsSub p s = true) (x : Char) :
    containsSub p (x :: s) = true := by
  simp [containsSub, h]

theorem containsSub_append {p s : List Char} (h : containsSub p s = true) :
    ∀ xs, containsSub p (xs ++ s) = true
  | [] => h
  | x :: xs => by
    have hx := containsSub_append h xs
    simp [containsSub, hx]

theorem containsSub_nil {p : List Char} (h : p ≠ []) : containsSub p [] = false := by
  cases p with
  | nil => exact absurd rfl h
  | cons a t => rfl

theorem ensure_line_of_contains {line c : List Char} (h : containsSub line c = true) :
    ensure_line line c = c := by
  simp [ensure_line, h]

theorem contains_ensure_line (line c : List Char) :
    containsSub line (ensure_line line c) = true := by
  unfold ensure_line
  split
  · assumption
  · split
    · exact containsSub_self line
    · exact containsSub_append (containsSub_cons (containsSub_self line) '\n') c

theorem ensure_line_idem (line c : List Char) :
    ensure_line line (ensure_line line c) = ensure_line line c :=
  ensure_line_of_contains (contains_ensure_line line c)

theorem ensure_line_append {line c : List Char} (hct : containsSub line c = false)
    (hcne : c ≠ []) : ensure_line line c = c ++ '\n' :: line := by
  simp [ensure_line, hct, List.isEmpty_iff, hcne]

theorem ensure_line_nil {line : List Char} (hne : line ≠ []) : ensure_line line [] = line := by
  simp [ensure_line, containsSub_nil hne]

theorem countOcc_zero_of_short {p : List Char} :
    ∀ {s : List Char}, s.length < p.length → countOcc p s = 0
  | [], _ => rfl
  | c :: rest, h => by
    have h1 : ¬ p.isPrefixOf (c :: rest) = true := fun hp => by
      have := prefixOf_length hp
      omega
    have h2 : rest.length < p.length := by
      simp only [List.length_cons] at h
      omega
    simp [countOcc, h1, countOcc_zero_of_short h2]

theorem countOcc_self {p : List Char} (h : p ≠ []) : countOcc p p = 1 := by
  cases p with
  | nil => exact absurd rfl h
  | cons a t =>
    have hz : countOcc (a :: t) t = 0 := countOcc_zero_of_short (by simp)
    simp [countOcc, prefixOf_refl, hz]

theorem countOcc_eq_zero_of_not_contains :
    ∀ {p c : List Char}, containsSub p c = false → countOcc p c = 0
  | _, [], _ => rfl
  | p, x :: rest, h => by
    simp only [containsSub, Bool.or_eq_false_iff] at h
    simp [countOcc, h.1, countOcc_eq_zero_of_not_contains h.2]

theorem countOcc_pos_of_contains :
    ∀ {p c : List Char}, containsSub p c = true → p ≠ [] → 0 < countOcc p c
  | p, [], h, hne => by
    rw [containsSub_nil hne] at h
    exact absurd h (by simp)
  | p, x :: rest, h, hne => by
    rw [containsSub, Bool.or_eq_true] at h
    rcases h with h | h
    · simp [countOcc, h]
    · have := countOcc_pos_of_contains h hne
      simp only [countOcc]
      omega

theorem countOcc_append_line {p : List Char} (hne : p ≠ []) (hnl : '\n' ∉ p) :
    ∀ {c : List Char}, countOcc p c = 0 → countOcc p (c ++ '\n' :: p) = 1
  | [], _ => by
    have hpre : p.isPrefixOf ('\n' :: p) = false := by
      cases p with
      | nil => exact absurd rfl hne
      | cons a t =>
        by_cases ha : a = '\n'
        · exact absurd (ha ▸ List.mem_cons_self a t) hnl
        · simp [List.isPrefixOf, ha]
    simp [countOcc, hpre, countOcc_self hne]
  | x :: c, h0 => by
    rw [countOcc] at h0
    rcases Nat.add_eq_zero.mp h0 with ⟨h1, hc⟩
    have hx : p.isPrefixOf (x :: c) = false := by
      by_cases hcond : p.isPrefixOf (x :: c) = true
      · rw [if_pos hcond] at h1
        omega
      · exact Bool.not_eq_true _ ▸ eq_false_of_ne_true hcond
    have ih := countOcc_append_line hne hnl (c := c) hc
    have hspan : p.isPrefixOf (x :: (c ++ '\n' :: p)) = false := by
      by_contra hcon
      rw [Bool.not_eq_false] at hcon
      rw [show x :: (c ++ '\n' :: p) = (x :: c) ++ '\n' :: p from rfl] at hcon
      rcases prefixOf_append_split (x :: c) hcon with h2 | ⟨t, ht, hpf⟩
      · rw [hx] at h2
        exact Bool.false_ne_true h2
      · cases t with
        | nil =>
          rw [List.append_nil] at ht
          rw [ht, prefixOf_refl] at hx
          simp at hx
        | cons c0 t' =>
          have hc0 : c0 = '\n' := by
            simp only [List.isPrefixOf, Bool.and_eq_true] at hpf
            simpa using hpf.1
          apply hnl
          rw [ht, hc0]
          exact List.mem_append_right _ (List.mem_cons_self _ _)
    show (if p.isPrefixOf (x :: (c ++ '\n' :: p)) = true then 1 else 0) +
      countOcc p (c ++ '\n' :: p) = 1
    rw [hspan]
    simp [ih]

theorem countOcc_ensure_line {p : List Char} (hne : p ≠ []) (hnl : '\n' ∉ p)
    {c : List Char} (hle : countOcc p c ≤ 1) : countOcc p (ensure_line p c) = 1 := by
  unfold ensure_line
  split
  · next hct =>
    have hpos := countOcc_pos_of_contains hct hne
    omega
  · next hct =>
    have hct' : containsSub p c = false := eq_false_of_ne_true hct
    have h0 : countOcc p c = 0 := countOcc_eq_zero_of_not_contains hct'
    split
    · exact countOcc_self hne
    · exact countOcc_append_line hne hnl h0

theorem import_line_ne_nil (m : ModuleManifest) : (import_line m).data ≠ [] := by
  unfold import_line
  intro h
  rw [String.data_append, String.data_append, String.data_append] at h
  rcases List.append_eq_nil.mp h with ⟨h3, _⟩
  rcases List.append_eq_nil.mp h3 with ⟨h2, _⟩
  rcases List.append_eq_nil.mp h2 with ⟨h1, _⟩
  exact (by decide : "from guardrails.hub.".data ≠ []) h1

theorem add_to_hub_inits_hubInit (m : ModuleManifest) (st : RegFiles) :
    (add_to_hub_inits m st).hubInit = ensure_line (import_line m).data st.hubInit := rfl

theorem add_to_hub_inits_nsInit_none (m : ModuleManifest) (st : RegFiles)
    (h : st.nsInit = none) :
    (add_to_hub_inits m st).nsInit = some (import_line m).data := by
  unfold add_to_hub_inits
  rw [h]

theorem add_to_hub_inits_nsInit_some (m : ModuleManifest) (st : RegFiles) (c : List Char)
    (h : st.nsInit = some c) :
    (add_to_hub_inits m st).nsInit = some (ensure_line (import_line m).data c) := by
  unfold add_to_hub_inits
  rw [h]

/-- C1: registering the same manifest twice against the same pair of
registration files is idempotent — the second registration changes neither
file — and, whenever the statement has no embedded newline and occurs at most
once in each present file beforehand, both files end up containing exactly one
occurrence of the generated import statement. -/
theorem c1_registration_idempotent (m : ModuleManifest) :
    (∀ st : RegFiles,
      add_to_hub_inits m (add_to_hub_inits m st) = add_to_hub_inits m st) ∧
    (∀ st : RegFiles, '\n' ∉ (import_line m).data →
      countOcc (import_line m).data st.hubInit ≤ 1 →
      (∀ c, st.nsInit = some c → countOcc (import_line m).data c ≤ 1) →
      countOcc (import_line m).data
          (add_to_hub_inits m (add_to_hub_inits m st)).hubInit = 1 ∧
      ∃ c₂, (add_to_hub_inits m (add_to_hub_inits m st)).nsInit = some c₂ ∧
        countOcc (import_line m).data c₂ = 1) := by
  have hne := import_line_ne_nil m
  have hidem : ∀ st : RegFiles,
      add_to_hub_inits m (add_to_hub_inits m st) = add_to_hub_inits m st := by
    intro st
    cases hns : st.nsInit with
    | none =>
      unfold add_to_hub_inits
      rw [hns]
      simp [ensure_line_idem, ensure_line_of_contains (containsSub_self _)]
    | some c =>
      unfold add_to_hub_inits
      rw [hns]
      simp [ensure_line_idem]
  refine ⟨hidem, ?_⟩
  intro st hnl hhub hns
  rw [hidem st]
  constructor
  · rw [add_to_hub_inits_hubInit]
    exact countOcc_ensure_line hne hnl hhub
  · cases hc : st.nsInit with
    | none =>
      exact ⟨_, add_to_hub_inits_nsInit_none m st hc, countOcc_self hne⟩
    | some c =>
      exact ⟨_, add_to_hub_inits_nsInit_some m st c hc,
        countOcc_ensure_line hne hnl (hns c hc)⟩

/-- Witness for C1 at the inputs of `test_closes_early_if_already_added`:
a hub file holding another validator's import line and a not-yet-existing
namespace file. -/
theorem c1_witness :
    ('\n' ∉ (import_line manifestTwoExports).data ∧
      countOcc (import_line manifestTwoExports).data
        "from guardrails.hub.other_org.other_validator.validator import OtherValidator".data
          ≤ 1) ∧
    (countOcc (import_line manifestTwoExports).data
        (add_to_hub_inits manifestTwoExports (add_to_hub_inits manifestTwoExports
          ⟨"from guardrails.hub.other_org.other_validator.validator import OtherValidator".data,
            none⟩)).hubInit = 1 ∧
      ∃ c₂, (add_to_hub_inits manifestTwoExports (add_to_hub_inits manifestTwoExports
          ⟨"from guardrails.hub.other_org.other_validator.validator import OtherValidator".data,
            none⟩)).nsInit = some c₂ ∧
        countOcc (import_line manifestTwoExports).data c₂ = 1) :=
  ⟨⟨by decide, by decide⟩,
    (c1_registration_idempotent manifestTwoExports).2
      ⟨"from guardrails.hub.other_org.other_validator.validator import OtherValidator".data,
        none⟩
      (by decide) (by decide) (fun _ hc => nomatch hc)⟩

/-- C3 counterexample: registering against an existing registration file whose
content is empty writes the bare statement, not a newline followed by the
statement — refuting the claim's "including an existing file whose content is
empty" at the concrete manifest of the registrar tests. -/
theorem c3_counterexample :
    (add_to_hub_inits manifestOneExport ⟨[], some []⟩).hubInit =
        (import_line manifestOneExport).data ∧
    (add_to_hub_inits manifestOneExport ⟨[], some []⟩).hubInit ≠
        [] ++ '\n' :: (import_line manifestOneExport).data ∧
    (add_to_hub_inits manifestOneExport ⟨[], some []⟩).nsInit ≠
        some ([] ++ '\n' :: (import_line manifestOneExport).data) := by
  refine ⟨rfl, by decide, by decide⟩

/-- C3 (amended): for an existing registration file whose content is non-empty
and does not contain the generated import statement, registration appends a
newline followed by the statement, leaving the prior content unchanged; an
existing file whose content is empty instead receives the bare statement with
no leading newline. -/
theorem c3_append_behaviour (m : ModuleManifest) (st : RegFiles) :
    (containsSub (import_line m).data st.hubInit = false → st.hubInit ≠ [] →
      (add_to_hub_inits m st).hubInit =
        st.hubInit ++ '\n' :: (import_line m).data) ∧
    (st.hubInit = [] →
      (add_to_hub_inits m st).hubInit = (import_line m).data) ∧
    (∀ c, st.nsInit = some c → containsSub (import_line m).data c = false → c ≠ [] →
      (add_to_hub_inits m st).nsInit =
        some (c ++ '\n' :: (import_line m).data)) ∧
    (st.nsInit = some [] →
      (add_to_hub_inits m st).nsInit = some (import_line m).data) := by
  have hne := import_line_ne_nil m
  refine ⟨?_, ?_, ?_, ?_⟩
  · intro hct hcne
    rw [add_to_hub_inits_hubInit, ensure_line_append hct hcne]
  · intro hnil
    rw [add_to_hub_inits_hubInit, hnil, ensure_line_nil hne]
  · intro c hc hct hcne
    rw [add_to_hub_inits_nsInit_some m st c hc, ensure_line_append hct hcne]
  · intro hc
    rw [add_to_hub_inits_nsInit_some m st [] hc, ensure_line_nil hne]

/-- Witness for C3 at the inputs of `test_appends_import_line_if_not_present`:
a hub file holding only another validator's line (gets a newline and the
statement appended) and an existing empty namespace file (gets the bare
statement). -/
theorem c3_witness :
    (containsSub (import_line manifestOneExport).data
        "from guardrails.hub.other_org.other_validator.validator import OtherValidator".data
        = false ∧
      "from guardrails.hub.other_org.other_validator.validator import OtherValidator".data
        ≠ ([] : List Char)) ∧
    ((add_to_hub_inits manifestOneExport
        ⟨"from guardrails.hub.other_org.other_validator.validator import OtherValidator".data,
          some []⟩).hubInit =
      "from guardrails.hub.other_org.other_validator.validator import OtherValidator".data ++
        '\n' :: (import_line manifestOneExport).data ∧
      (add_to_hub_inits manifestOneExport
        ⟨"from guardrails.hub.other_org.other_validator.validator import OtherValidator".data,
          some []⟩).nsInit = some (import_line manifestOneExport).data) :=
  ⟨⟨by decide, by decide⟩,
    ⟨(c3_append_behaviour manifestOneExport
        ⟨"from guardrails.hub.other_org.other_validator.validator import OtherValidator".data,
          some []⟩).1 (by decide) (by decide),
      (c3_append_behaviour manifestOneExport
        ⟨"from guardrails.hub.other_org.other_validator.validator import OtherValidator".data,
          some []⟩).2.2.2 rfl⟩⟩

theorem charListLe_total : ∀ a b : List Char, charListLe a b = true ∨ charListLe b a = true
  | [], _ => Or.inl rfl
  | _ :: _, [] => Or.inr rfl
  | a :: as, b :: bs => by
    rcases lt_trichotomy a b with h | h | h
    · left
      simp [charListLe, h]
    · subst h
      rcases charListLe_total as bs with h' | h'
      · left
        simp [charListLe, lt_irrefl, h']
      · right
        simp [charListLe, lt_irrefl, h']
    · right
      simp [charListLe, h]

theorem charListLe_trans :
    ∀ a b c : List Char, charListLe a b = true → charListLe b c = true →
      charListLe a c = true
  | [], _, _, _, _ => rfl
  | _ :: _, [], _, hab, _ => by simp [charListLe] at hab
  | _ :: _, _ :: _, [], _, hbc => by simp [charListLe] at hbc
  | a :: as, b :: bs, c :: cs, hab, hbc => by
    rcases lt_trichotomy a b with h1 | h1 | h1
    · rcases lt_trichotomy b c with h2 | h2 | h2
      · simp [charListLe, lt_trans h1 h2]
      · subst h2
        simp [charListLe, h1]
      · simp [charListLe, asymm h2, h2] at hbc
    · subst h1
      rcases lt_trichotomy a c with h2 | h2 | h2
      · simp [charListLe, h2]
      · subst h2
        have h3 : charListLe as bs = true := by
          simpa [charListLe, lt_irrefl] using hab
        have h4 : charListLe bs cs = true := by
          simpa [charListLe, lt_irrefl] using hbc
        simp [charListLe, lt_irrefl, charListLe_trans as bs cs h3 h4]
      · simp [charListLe, asymm h2, h2] at hbc
    · simp [charListLe, asymm h1, h1] at hab

/-- C4 counterexample: with declared exports `["TestValidator", "helper"]`
(the manifest of `test_closes_early_if_already_added`) the generated statement
lists `helper` first, not the declared order. -/
theorem c4_counterexample :
    import_line manifestTwoExports ≠
      "from guardrails.hub.guardrails_ai.test_validator.validator import TestValidator, helper" ∧
    import_line manifestTwoExports =
      "from guardrails.hub.guardrails_ai.test_validator.validator import helper, TestValidator" := by
  refine ⟨by decide, by decide⟩

/-- C4 (amended): the generated import statement lists the manifest's exports
joined in descending lexicographic order (Python's
`sorted(exports, reverse=True)`), not in their declared order: the joined list
is a permutation of the declared exports sorted by `exportRevOrder`. -/
theorem c4_export_order (m : ModuleManifest) :
    ∃ l : List String, List.Perm l m.exports ∧ List.Sorted exportRevOrder l ∧
      import_line m =
        "from guardrails.hub." ++
          String.intercalate "." (get_org_and_package_dirs m ++ [m.module_name]) ++
          " import " ++ String.intercalate ", " l := by
  haveI : IsTotal String exportRevOrder := ⟨fun a b => charListLe_total b.data a.data⟩
  haveI : IsTrans String exportRevOrder :=
    ⟨fun a b c hab hbc => charListLe_trans c.data b.data a.data hbc hab⟩
  exact ⟨sorted_exports m.exports, List.perm_insertionSort _ _,
    List.sorted_insertionSort _ _, rfl⟩

theorem dependency_installs_eq (sat : String → Bool) :
    ∀ reqs : List Requirement, dependency_installs sat reqs =
      (reqs.filter fun r => !unsatisfied_marker sat r).map
        fun r => PipCall.installDep r.spec
  | [] => rfl
  | r :: rest => by
    cases h : unsatisfied_marker sat r with
    | true =>
      simp [dependency_installs, h, List.filter_cons, dependency_installs_eq sat rest]
    | false =>
      simp [dependency_installs, h, List.filter_cons, dependency_installs_eq sat rest]

theorem countP_bnot_add {α : Type} (p : α → Bool) (l : List α) :
    l.countP (fun a => !p a) + l.countP p = l.length := by
  induction l with
  | nil => rfl
  | cons a t ih => by_cases h : p a = true <;> simp [List.countP_cons, h] <;> omega

theorem countP_dep_dependency_installs (sat : String → Bool) :
    ∀ reqs : List Requirement,
      (dependency_installs sat reqs).countP PipCall.isDepInstall =
        reqs.countP (fun r => !unsatisfied_marker sat r)
  | [] => rfl
  | r :: rest => by
    cases h : unsatisfied_marker sat r with
    | true =>
      simp [dependency_installs, h, List.countP_cons,
        countP_dep_dependency_installs sat rest]
    | false =>
      simp [dependency_installs, h, List.countP_cons,
        countP_dep_dependency_installs sat rest, PipCall.isDepInstall]

theorem countP_target_dependency_installs (sat : String → Bool) :
    ∀ reqs : List Requirement,
      (dependency_installs sat reqs).countP PipCall.isTargetInstall = 0
  | [] => rfl
  | r :: rest => by
    cases h : unsatisfied_marker sat r with
    | true =>
      simp [dependency_installs, h, countP_target_dependency_installs sat rest]
    | false =>
      simp [dependency_installs, h, List.countP_cons,
        countP_target_dependency_installs sat rest, PipCall.isTargetInstall]

theorem countP_inspect_dependency_installs (sat : String → Bool) :
    ∀ reqs : List Requirement,
      (dependency_installs sat reqs).countP PipCall.isInspect = 0
  | [] => rfl
  | r :: rest => by
    cases h : unsatisfied_marker sat r with
    | true =>
      simp [dependency_installs, h, countP_inspect_dependency_installs sat rest]
    | false =>
      simp [dependency_installs, h, List.countP_cons,
        countP_inspect_dependency_installs sat rest, PipCall.isInspect]

theorem mem_dependency_installs {sat : String → Bool} :
    ∀ {reqs : List Requirement} {s : String},
      PipCall.installDep s ∈ dependency_installs sat reqs →
      ∃ r, r ∈ reqs ∧ unsatisfied_marker sat r = false ∧ r.spec = s := by
  intro reqs
  induction reqs with
  | nil =>
    intro s h
    simp [dependency_installs] at h
  | cons r rest ih =>
    intro s h
    cases hm : unsatisfied_marker sat r with
    | true =>
      rw [dependency_installs, hm] at h
      simp only [if_pos] at h
      obtain ⟨r', hr', hprop⟩ := ih h
      exact ⟨r', List.mem_cons_of_mem r hr', hprop⟩
    | false =>
      rw [dependency_installs, hm] at h
      simp only [Bool.false_eq_true, if_false] at h
      rcases List.mem_cons.mp h with heq | hmem
      · refine ⟨r, List.mem_cons_self r rest, hm, ?_⟩
        injection heq.symm
      · obtain ⟨r', hr', hprop⟩ := ih hmem
        exact ⟨r', List.mem_cons_of_mem r hr', hprop⟩

/-- C2: installing the hub module performs exactly one target-scoped install
call with dependency resolution disabled (`--target=<dir>`, `--no-deps`), one
inspect call against that directory, and one plain install per requirement
without an unsatisfied marker (its constraint text passed with the marker
stripped); no plain install ever stems from a marker-gated requirement. -/
theorem c2_install_hub_module_calls (m : ModuleManifest) (site_packages : String)
    (reqs : List Requirement) (sat : String → Bool) :
    install_hub_module m site_packages reqs sat =
      PipCall.install (get_install_url m)
          ["--target=" ++ get_hub_directory m site_packages, "--no-deps"] ::
        PipCall.inspect ["--path=" ++ get_hub_directory m site_packages] ::
        ((reqs.filter fun r => !unsatisfied_marker sat r).map
          fun r => PipCall.installDep r.spec) ∧
    (install_hub_module m site_packages reqs sat).countP PipCall.isTargetInstall = 1 ∧
    (install_hub_module m site_packages reqs sat).countP PipCall.isInspect = 1 ∧
    (install_hub_module m site_packages reqs sat).countP PipCall.isDepInstall =
      reqs.length - reqs.countP (unsatisfied_marker sat) ∧
    (∀ s, PipCall.installDep s ∈ install_hub_module m site_packages reqs sat →
      ∃ r, r ∈ reqs ∧ unsatisfied_marker sat r = false ∧ r.spec = s) := by
  refine ⟨?_, ?_, ?_, ?_, ?_⟩
  · rw [install_hub_module, dependency_installs_eq]
  · simp [install_hub_module, List.countP_cons, PipCall.isTargetInstall,
      PipCall.isInspect, countP_target_dependency_installs]
  · simp [install_hub_module, List.countP_cons, PipCall.isTargetInstall,
      PipCall.isInspect, countP_inspect_dependency_installs]
  · have h1 := countP_dep_dependency_installs sat reqs
    have h2 := countP_bnot_add (unsatisfied_marker sat) reqs
    simp [install_hub_module, List.countP_cons, PipCall.isDepInstall, h1]
    omega
  · intro s h
    simp only [install_hub_module, List.mem_cons] at h
    rcases h with h | h | h
    · exact absurd h (by simp)
    · exact absurd h (by simp)
    · exact mem_dependency_installs h

/-- C5 counterexample: `{url: "some-repo"}` (no branch, the manifest of the
first `test_get_install_url` case) derives `"git+some-repo"`, not the
repository url unchanged. -/
theorem c5_counterexample :
    get_install_url manifestTwoExports = "git+some-repo" ∧
    get_install_url manifestTwoExports ≠ "some-repo" := by
  refine ⟨by decide, by decide⟩

/-- C5 (amended): the derived install URL is the repository url prefixed with
`"git+"` unless it already starts with `"git+"`, with `"@" ++ branch` appended
when a branch is present. -/
theorem c5_install_url (m : ModuleManifest) :
    ("git+".data.isPrefixOf m.repository.url.data = false →
      m.repository.branch = none →
      get_install_url m = "git+" ++ m.repository.url) ∧
    ("git+".data.isPrefixOf m.repository.url.data = true →
      m.repository.branch = none →
      get_install_url m = m.repository.url) ∧
    (∀ b, "git+".data.isPrefixOf m.repository.url.data = false →
      m.repository.branch = some b →
      get_install_url m = "git+" ++ m.repository.url ++ "@" ++ b) ∧
    (∀ b, "git+".data.isPrefixOf m.repository.url.data = true →
      m.repository.branch = some b →
      get_install_url m = m.repository.url ++ "@" ++ b) := by
  refine ⟨?_, ?_, ?_, ?_⟩
  · intro h1 h2
    simp [get_install_url, h1, h2]
  · intro h1 h2
    simp [get_install_url, h1, h2]
  · intro b h1 h2
    simp [get_install_url, h1, h2]
  · intro b h1 h2
    simp [get_install_url, h1, h2]

/-- Witness for C5 at the branch-carrying manifest of `test_get_install_url`:
`{url: "git+some-repo", branch: "prod"}` derives `"git+some-repo@prod"`. -/
theorem c5_witness :
    ("git+".data.isPrefixOf manifestWithBranch.repository.url.data = true ∧
      manifestWithBranch.repository.branch = some "prod") ∧
    get_install_url manifestWithBranch = "git+some-repo" ++ "@" ++ "prod" :=
  ⟨⟨by decide, rfl⟩, (c5_install_url manifestWithBranch).2.2.2 "prod" (by decide) rfl⟩

/-- C6: for an endpoint-requiring manifest with no explicit local-models flag,
no persisted settings and no confirmation callback, the install fails with
`LocalModelFlagNotSet` after only the start log — no package-manager
invocation, registration or post-install step ever enters the trace. -/
theorem c6_ambiguous_local_model (uri : String) (m : ModuleManifest)
    (rc_use_remote : Bool)
    (hpre : "hub://".data.isPrefixOf uri.data = true)
    (hend : m.tags.has_guardrails_endpoint = true) :
    install uri m none false rc_use_remote none =
      ([InstallStep.logEvent ("Installing " ++ uri ++ "...")],
        some InstallError.localModelFlagNotSet) ∧
    ∀ s ∈ (install uri m none false rc_use_remote none).1,
      s ≠ InstallStep.installHubModule ∧ s ≠ InstallStep.addToHubInits ∧
        s ≠ InstallStep.runPostInstall := by
  have h1 : install uri m none false rc_use_remote none =
      ([InstallStep.logEvent ("Installing " ++ uri ++ "...")],
        some InstallError.localModelFlagNotSet) := by
    simp [install, hpre, resolve_use_remote, hend]
  refine ⟨h1, ?_⟩
  intro s hs
  rw [h1] at hs
  simp only [List.mem_singleton] at hs
  subst hs
  refine ⟨by simp, by simp, by simp⟩

/-- Witness for C6 at the inputs of
`test_install_local_models_confirmation_raises_exception`. -/
theorem c6_witness :
    ("hub://".data.isPrefixOf "hub://guardrails/test-validator".data = true ∧
      manifestWithEndpoint.tags.has_guardrails_endpoint = true) ∧
    install "hub://guardrails/test-validator" manifestWithEndpoint none false false none =
      ([InstallStep.logEvent "Installing hub://guardrails/test-validator..."],
        some InstallError.localModelFlagNotSet) :=
  ⟨⟨by decide, rfl⟩,
    (c6_ambiguous_local_model "hub://guardrails/test-validator" manifestWithEndpoint
      false (by decide) rfl).1⟩

/-- C7: the post-install runner spawns exactly one subprocess (interpreter and
resolved script path, no further arguments) when the `post_install` field is
present, non-empty and the resolved path exists; an absent field, an empty
value or a missing file each yield an empty invocation trace, with no
error. -/
theorem c7_post_install_condition (m : ModuleManifest) (site_packages executable : String)
    (is_file : String → Bool) :
    (∀ script, m.post_install = some script → script ≠ "" →
      is_file (post_install_script_path m site_packages script) = true →
      run_post_install m site_packages executable is_file =
        [[executable, post_install_script_path m site_packages script]]) ∧
    (m.post_install = none →
      run_post_install m site_packages executable is_file = []) ∧
    (m.post_install = some "" →
      run_post_install m site_packages executable is_file = []) ∧
    (∀ script, m.post_install = some script →
      is_file (post_install_script_path m site_packages script) = false →
      run_post_install m site_packages executable is_file = []) ∧
    (run_post_install m site_packages executable is_file = [] ∨
      ∃ script, m.post_install = some script ∧ script ≠ "" ∧
        is_file (post_install_script_path m site_packages script) = true ∧
        run_post_install m site_packages executable is_file =
          [[executable, post_install_script_path m site_packages script]]) := by
  refine ⟨?_, ?_, ?_, ?_, ?_⟩
  · intro script h1 h2 h3
    simp [run_post_install, h1, h2, h3]
  · intro h1
    simp [run_post_install, h1]
  · intro h1
    simp [run_post_install, h1]
  · intro script h1 h2
    by_cases hs : script = ""
    · simp [run_post_install, h1, hs]
    · simp [run_post_install, h1, hs, h2]
  · cases h1 : m.post_install with
    | none => exact Or.inl (by simp [run_post_install, h1])
    | some script =>
      by_cases hs : script = ""
      · exact Or.inl (by simp [run_post_install, h1, hs])
      · cases h3 : is_file (post_install_script_path m site_packages script) with
        | false => exact Or.inl (by simp [run_post_install, h1, hs, h3])
        | true =>
          exact Or.inr ⟨script, rfl, hs, h3, by simp [run_post_install, h1, hs, h3]⟩

/-- Witness for C7 at the inputs of `test_runs_script_if_exists` (script
`post_install.py`, resolved path present) and `test_does_not_run_if_no_script`
(field absent). -/
theorem c7_witness :
    (manifestOneExport.post_install = some "post_install.py" ∧
      "post_install.py" ≠ "" ∧
      (fun _ => true)
        (post_install_script_path manifestOneExport "./site_packages" "post_install.py")
        = true ∧
      manifestNoNamespace.post_install = none) ∧
    (run_post_install manifestOneExport "./site_packages" "python" (fun _ => true) =
      [["python",
        post_install_script_path manifestOneExport "./site_packages" "post_install.py"]] ∧
      run_post_install manifestNoNamespace "./site_packages" "python" (fun _ => true) = []) :=
  ⟨⟨rfl, by decide, rfl, rfl⟩,
    ⟨(c7_post_install_condition manifestOneExport "./site_packages" "python"
        (fun _ => true)).1 "post_install.py" rfl (by decide) rfl,
      (c7_post_install_condition manifestNoNamespace "./site_packages" "python"
        (fun _ => true)).2.1 rfl⟩⟩

/-- C8: parsing `hub://org/pkg` yields `org/pkg`; any identifier lacking the
`hub://` prefix fails with the malformed-identifier error, and the install
orchestrator then performs nothing at all (empty step trace). -/
theorem c8_hub_identifier_parsing :
    get_module_name "hub://org/pkg" = .ok "org/pkg" ∧
    (∀ uri, "hub://".data.isPrefixOf uri.data = false →
      get_module_name uri = .error InstallError.invalidHubInstallURL) ∧
    (∀ (uri : String) (m : ModuleManifest) (ilm : Option Bool) (hrc rcr : Bool)
        (cf : Option Bool), "hub://".data.isPrefixOf uri.data = false →
      install uri m ilm hrc rcr cf = ([], some InstallError.invalidHubInstallURL)) := by
  refine ⟨rfl, ?_, ?_⟩
  · intro uri h
    simp [get_module_name, h]
  · intro uri m ilm hrc rcr cf h
    simp [install, h]

/-- Witness for C8 at the input of `test_get_module_name_invalid`. -/
theorem c8_witness :
    "hub://".data.isPrefixOf "invalid-uri".data = false ∧
    get_module_name "invalid-uri" = .error InstallError.invalidHubInstallURL ∧
    install "invalid-uri" manifestWithEndpoint none false false none =
      ([], some InstallError.invalidHubInstallURL) :=
  ⟨by decide, c8_hub_identifier_parsing.2.1 "invalid-uri" (by decide),
    c8_hub_identifier_parsing.2.2 "invalid-uri" manifestWithEndpoint none false false
      none (by decide)⟩

theorem snake_case_empty_iff (s : String) : snake_case s = "" ↔ s = "" := by
  constructor
  · intro h
    have hd : s.data.map (fun c => if c = '-' then '_' else c) = [] :=
      congrArg String.data h
    have hnil : s.data = [] := List.map_eq_nil_iff.mp hd
    cases s with
    | mk d =>
      simp only at hnil
      rw [hnil]
  · intro h
    rw [h]
    rfl

/-- C9: the derived directory/import-path segments are one segment for a
non-empty namespace followed by the package-name segment, nothing for an empty
namespace, with hyphens replaced by underscores in every segment. -/
theorem c9_path_segments (m : ModuleManifest) :
    (m.namespace' = "" →
      get_org_and_package_dirs m = [snake_case m.package_name]) ∧
    (m.namespace' ≠ "" →
      get_org_and_package_dirs m =
        [snake_case m.namespace', snake_case m.package_name]) ∧
    (∀ s : String,
      (snake_case s).data = s.data.map fun c => if c = '-' then '_' else c) := by
  refine ⟨?_, ?_, fun s => rfl⟩
  · intro h
    have : snake_case m.namespace' = "" := (snake_case_empty_iff _).mpr h
    simp [get_org_and_package_dirs, this]
  · intro h
    have : snake_case m.namespace' ≠ "" := fun hc =>
      h ((snake_case_empty_iff _).mp hc)
    simp [get_org_and_package_dirs, this]

/-- Witness for C9 at the two manifests of `test_get_org_and_package_dirs`
(namespace `"guardrails-ai"` and namespace `""`). -/
theorem c9_witness :
    (manifestNoNamespace.namespace' = "" ∧ manifestTwoExports.namespace' ≠ "") ∧
    (get_org_and_package_dirs manifestNoNamespace =
        [snake_case manifestNoNamespace.package_name] ∧
      get_org_and_package_dirs manifestTwoExports =
        [snake_case manifestTwoExports.namespace',
          snake_case manifestTwoExports.package_name]) :=
  ⟨⟨rfl, by decide⟩,
    ⟨(c9_path_segments manifestNoNamespace).1 rfl,
      (c9_path_segments manifestTwoExports).2.1 (by decide)⟩⟩

/-- C10: `split_and_install_validators` computes each identifier with
`v.lstrip("hub://")`, which strips the leading character SET
`{'h','u','b',':','/'}` rather than the prefix string: for the input
`"hub://blah"` (the very example in the function's own comment,
`# hub://blah -> blah`) the manifest is fetched for `"lah"`, not `"blah"`. -/
theorem c10_lstrip_character_set :
    split_and_install_validators "hub://blah" = some ["lah"] ∧
    split_and_install_validators "hub://blah" ≠ some ["blah"] ∧
    py_lstrip "hub://blah" "hub://" = "lah" ∧
    py_lstrip "hub://hub-validator" "hub://" = "-validator" := by
  refine ⟨rfl, by decide, rfl, rfl⟩
